import Mathlib

/-!
Verification development for the EncryptedBidding Solidity contract
(secure-trade-wallet repository).

Shallow embedding: euint32 ciphertext handles are modelled by their
plaintext Nat values (the FHE backend is an opaque capability whose
comparison and selection act on the underlying plaintexts), addresses
are modelled as Nat (0 playing the role of the zero address), and
block.timestamp is an explicit now argument.  A reverting Solidity
call is an Except.error: no new state is produced; the transactional
wrappers runSubmitBid and runFindLowestBid make the no-state-change
reading of a revert explicit.
-/

set_option autoImplicit false

namespace EncryptedBidding

/- Model of the FHE library calls the contract makes. -/
namespace FHE

/-- An externalEuint32 together with its input proof: the pair either
validates (and carries a 32-bit plaintext) or fails authenticity. -/
structure ExternalEuint32 where
  value : Nat
  validProof : Bool
deriving DecidableEq

/-- FHE.fromExternal: import an external ciphertext, failing on an
invalid input proof (the call reverts in that case). -/
def fromExternal (e : ExternalEuint32) : Option Nat :=
  if e.validProof then some (e.value % 2 ^ 32) else none

/-- FHE.asEuint32 on a plain value. -/
def asEuint32 (n : Nat) : Nat := n % 2 ^ 32

/-- FHE.lt: homomorphic strict comparison of two euint32 values. -/
def lt (a b : Nat) : Bool := a < b

/-- FHE.select cond a b: homomorphic multiplexer. -/
def select (cond : Bool) (a b : Nat) : Nat := if cond then a else b

end FHE

/-- Who receives a decryption-authorization grant. -/
inductive Grantee where
  | contractSelf
  | principal (addr : Nat)
deriving DecidableEq

/-- One decryption-authorization grant issued during a call:
FHE.allowThis ct is ⟨ct, .contractSelf⟩ and FHE.allow ct a is
⟨ct, .principal a⟩. -/
structure Grant where
  ciphertext : Nat
  grantee : Grantee
deriving DecidableEq

/-- Events emitted by the contract. -/
inductive Event where
  | BidSubmitted (bidder : Nat) (timestamp : Nat)
  | LowestBidCalculated (lowestBidder : Nat) (timestamp : Nat)
deriving DecidableEq

/-- The Bid struct (field exists renamed to exists_, a reserved word). -/
structure Bid where
  encryptedPrice : Nat
  bidder : Nat
  timestamp : Nat
  exists_ : Bool
deriving DecidableEq

/-- The zero-initialized Bid a Solidity mapping returns for an absent
key. -/
def Bid.default : Bid := ⟨0, 0, 0, false⟩

/-- The contract storage. -/
structure State where
  organizer : Nat
  bids : Nat → Bid
  bidders : List Nat
  lowestBid : Nat
  lowestBidder : Nat
  lowestBidCalculated : Bool
  zeroEuint32 : Nat

/-- The revert conditions of the contract. -/
inductive Err where
  | invalidCiphertextProof
  | emptyLedger
deriving DecidableEq

/-- The constructor: rejects the zero address, otherwise produces the
freshly deployed storage. -/
def deployContract (organizer : Nat) : Option State :=
  if organizer = 0 then none
  else some
    { organizer := organizer
      bids := fun _ => Bid.default
      bidders := []
      lowestBid := 0
      lowestBidder := 0
      lowestBidCalculated := false
      zeroEuint32 := FHE.asEuint32 0 }

/-- The successful branch of submitBid, after the input proof has been
verified and yielded the imported ciphertext price: create or
overwrite the bid of the sender, grant decryption on it to the
contract and the organizer, reset _lowestBidCalculated, and emit
BidSubmitted. -/
def submitBidOk (s : State) (sender : Nat) (price : Nat) (now : Nat) :
    State × List Grant × Event :=
  let s1 : State :=
    if (s.bids sender).exists_ then
      { s with bids := fun a =>
          if a = sender then
            { s.bids sender with encryptedPrice := price, timestamp := now }
          else s.bids a }
    else
      { s with
        bids := fun a =>
          if a = sender then
            { encryptedPrice := price, bidder := sender, timestamp := now,
              exists_ := true }
          else s.bids a
        bidders := s.bidders ++ [sender] }
  let s2 : State := { s1 with lowestBidCalculated := false }
  (s2,
   [⟨(s1.bids sender).encryptedPrice, .contractSelf⟩,
    ⟨(s1.bids sender).encryptedPrice, .principal s.organizer⟩],
   .BidSubmitted sender now)

/-- submitBid: import the ciphertext via FHE.fromExternal, reverting
with InvalidCiphertextProof on a bad proof, then run the successful
branch. -/
def submitBid (s : State) (sender : Nat) (encryptedPrice : FHE.ExternalEuint32)
    (now : Nat) : Except Err (State × List Grant × Event) :=
  match FHE.fromExternal encryptedPrice with
  | none => .error .invalidCiphertextProof
  | some price => .ok (submitBidOk s sender price now)

/-- The body of the loop in findLowestBid: one FHE.lt plus one
FHE.select step of the running minimum. -/
def minStep (s : State) (acc : Nat) (bidder : Nat) : Nat :=
  let currentBid := (s.bids bidder).encryptedPrice
  let isLess := FHE.lt currentBid acc
  FHE.select isLess currentBid acc

/-- The successful branch of findLowestBid on roster b0 :: rest: seed
the running minimum with the ciphertext of the first bidder, fold the
lt/select step over the rest, store the result with _lowestBidder left
at the first bidder, grant decryption to the contract and the
organizer, set _lowestBidCalculated, and emit LowestBidCalculated. -/
def findLowestBidOk (s : State) (b0 : Nat) (rest : List Nat) (now : Nat) :
    State × List Grant × Event :=
  let m := rest.foldl (minStep s) ((s.bids b0).encryptedPrice)
  ({ s with lowestBid := m, lowestBidder := b0, lowestBidCalculated := true },
   [⟨m, .contractSelf⟩, ⟨m, .principal s.organizer⟩],
   .LowestBidCalculated b0 now)

/-- findLowestBid: requires a non-empty roster (reverting with
EmptyLedger otherwise), then runs the successful branch. -/
def findLowestBid (s : State) (now : Nat) :
    Except Err (State × List Grant × Event) :=
  match s.bidders with
  | [] => .error .emptyLedger
  | b0 :: rest => .ok (findLowestBidOk s b0 rest now)

/-- getBid: view returning the stored bid fields for an address. -/
def getBid (s : State) (bidder : Nat) : Nat × Nat × Nat × Bool :=
  let bid := s.bids bidder
  (bid.encryptedPrice, bid.bidder, bid.timestamp, bid.exists_)

/-- getLowestBid: view returning (zero ciphertext, false) until a
minimum has been calculated. -/
def getLowestBid (s : State) : Nat × Bool :=
  if !s.lowestBidCalculated then (s.zeroEuint32, false)
  else (s.lowestBid, true)

/-- getAllBidders: view returning the roster. -/
def getAllBidders (s : State) : List Nat := s.bidders

/-- hasBid: view. -/
def hasBid (s : State) (bidder : Nat) : Bool := (s.bids bidder).exists_

/-- Transactional wrapper for submitBid: a revert leaves the state
unchanged, issues no grant and emits no event. -/
def runSubmitBid (s : State) (sender : Nat) (encryptedPrice : FHE.ExternalEuint32)
    (now : Nat) : State × List Grant × List Event :=
  match submitBid s sender encryptedPrice now with
  | .error _ => (s, [], [])
  | .ok (t, g, ev) => (t, g, [ev])

/-- Transactional wrapper for findLowestBid: a revert leaves the
state unchanged, issues no grant and emits no event. -/
def runFindLowestBid (s : State) (now : Nat) : State × List Grant × List Event :=
  match findLowestBid s now with
  | .error _ => (s, [], [])
  | .ok (t, g, ev) => (t, g, [ev])

/-- The states reachable from deployment by any sequence of successful
submitBid and findLowestBid transactions. -/
inductive Reachable : State → Prop where
  | deploy (organizer : Nat) (s : State) :
      deployContract organizer = some s → Reachable s
  | submit (s : State) (sender : Nat) (e : FHE.ExternalEuint32) (now : Nat)
      (r : State × List Grant × Event) :
      Reachable s → submitBid s sender e now = .ok r → Reachable r.1
  | eval (s : State) (now : Nat) (r : State × List Grant × Event) :
      Reachable s → findLowestBid s now = .ok r → Reachable r.1

/-! Concrete states used by witnesses and counterexamples. -/

/-- A valid external ciphertext carrying the value v. -/
def extBid (v : Nat) : FHE.ExternalEuint32 := ⟨v, true⟩

/-- The storage right after deployment with organizer 100. -/
def exState0 : State :=
  { organizer := 100
    bids := fun _ => Bid.default
    bidders := []
    lowestBid := 0
    lowestBidder := 0
    lowestBidCalculated := false
    zeroEuint32 := 0 }

/-- A ledger with three bids: bidder 1 at 1000, bidder 2 at 800,
bidder 3 at 1200. -/
def exState3 : State :=
  { exState0 with
    bids := fun a =>
      if a = 1 then ⟨1000, 1, 5, true⟩
      else if a = 2 then ⟨800, 2, 6, true⟩
      else if a = 3 then ⟨1200, 3, 7, true⟩
      else Bid.default
    bidders := [1, 2, 3] }

/-- exState3 after a completed minimum-finding pass. -/
def exStateT : State :=
  { exState3 with lowestBid := 800, lowestBidder := 1, lowestBidCalculated := true }


/-- The Bid Ledger invariant: the roster has no duplicates and holds
exactly the identities with a live bid. -/
def LedgerInv (s : State) : Prop :=
  s.bidders.Nodup ∧ ∀ a, a ∈ s.bidders ↔ (s.bids a).exists_ = true

/-! Helper lemmas. -/

lemma submitBid_ok_elim {s : State} {sender : Nat} {e : FHE.ExternalEuint32}
    {now : Nat} {r : State × List Grant × Event}
    (h : submitBid s sender e now = Except.ok r) :
    ∃ price, FHE.fromExternal e = some price ∧ r = submitBidOk s sender price now := by
  unfold submitBid at h
  cases hfe : FHE.fromExternal e with
  | none => rw [hfe] at h; exact Except.noConfusion h
  | some price => rw [hfe] at h; exact ⟨price, rfl, (Except.ok.inj h).symm⟩

lemma submitBid_eq_ok {s : State} {sender : Nat} {e : FHE.ExternalEuint32}
    {now : Nat} {price : Nat} (hfe : FHE.fromExternal e = some price) :
    submitBid s sender e now = Except.ok (submitBidOk s sender price now) := by
  unfold submitBid; rw [hfe]

lemma findLowestBid_ok_elim {s : State} {now : Nat}
    {r : State × List Grant × Event} (h : findLowestBid s now = Except.ok r) :
    ∃ b0 rest, s.bidders = b0 :: rest ∧ r = findLowestBidOk s b0 rest now := by
  unfold findLowestBid at h
  cases hb : s.bidders with
  | nil => rw [hb] at h; exact Except.noConfusion h
  | cons b0 rest => rw [hb] at h; exact ⟨b0, rest, rfl, (Except.ok.inj h).symm⟩

lemma findLowestBid_eq_ok {s : State} {now b0 : Nat} {rest : List Nat}
    (hb : s.bidders = b0 :: rest) :
    findLowestBid s now = Except.ok (findLowestBidOk s b0 rest now) := by
  unfold findLowestBid; rw [hb]

lemma minStep_le_acc (s : State) (acc bidder : Nat) : minStep s acc bidder ≤ acc := by
  simp only [minStep, FHE.lt, FHE.select, decide_eq_true_eq]
  split <;> omega

lemma minStep_le_price (s : State) (acc bidder : Nat) :
    minStep s acc bidder ≤ (s.bids bidder).encryptedPrice := by
  simp only [minStep, FHE.lt, FHE.select, decide_eq_true_eq]
  split <;> omega

lemma minStep_cases (s : State) (acc bidder : Nat) :
    minStep s acc bidder = acc ∨ minStep s acc bidder = (s.bids bidder).encryptedPrice := by
  simp only [minStep, FHE.lt, FHE.select, decide_eq_true_eq]
  split
  · exact Or.inr rfl
  · exact Or.inl rfl

lemma foldl_minStep_le (s : State) (l : List Nat) (init : Nat) :
    l.foldl (minStep s) init ≤ init ∧
    ∀ b ∈ l, l.foldl (minStep s) init ≤ (s.bids b).encryptedPrice := by
  induction l generalizing init with
  | nil => simp
  | cons b t ih =>
    simp only [List.foldl_cons]
    refine ⟨le_trans (ih (minStep s init b)).1 (minStep_le_acc s init b), ?_⟩
    intro c hc
    rcases List.mem_cons.mp hc with rfl | hc
    · exact le_trans (ih (minStep s init c)).1 (minStep_le_price s init c)
    · exact (ih (minStep s init b)).2 c hc

lemma foldl_minStep_mem (s : State) (l : List Nat) (init : Nat) :
    l.foldl (minStep s) init = init ∨
    ∃ b ∈ l, l.foldl (minStep s) init = (s.bids b).encryptedPrice := by
  induction l generalizing init with
  | nil => simp
  | cons b t ih =>
    simp only [List.foldl_cons]
    rcases ih (minStep s init b) with h | ⟨c, hc, h⟩
    · rcases minStep_cases s init b with h2 | h2
      · exact Or.inl (h.trans h2)
      · exact Or.inr ⟨b, List.mem_cons_self b t, h.trans h2⟩
    · exact Or.inr ⟨c, List.mem_cons_of_mem b hc, h⟩

lemma ledgerInv_deploy {org : Nat} {s : State}
    (h : deployContract org = some s) : LedgerInv s := by
  unfold deployContract at h
  split at h
  · exact Option.noConfusion h
  · have hs := Option.some.inj h
    subst hs
    constructor
    · exact List.nodup_nil
    · intro a
      simp [Bid.default]

lemma ledgerInv_submitBidOk {s : State} (sender price now : Nat)
    (hs : LedgerInv s) : LedgerInv (submitBidOk s sender price now).1 := by
  obtain ⟨hnd, hiff⟩ := hs
  by_cases hex : (s.bids sender).exists_
  · constructor
    · simpa [submitBidOk, hex] using hnd
    · intro a
      by_cases ha : a = sender
      · subst ha
        simpa [submitBidOk, hex] using hiff a
      · simpa [submitBidOk, hex, ha] using hiff a
  · have hnotin : sender ∉ s.bidders := fun hmem => hex ((hiff sender).mp hmem)
    constructor
    · simp [submitBidOk, hex, List.nodup_append, hnd, hnotin]
    · intro a
      by_cases ha : a = sender
      · subst ha
        simp [submitBidOk, hex]
      · simpa [submitBidOk, hex, ha] using hiff a

lemma ledgerInv_findLowestBidOk {s : State} (b0 now : Nat) (rest : List Nat)
    (hs : LedgerInv s) : LedgerInv (findLowestBidOk s b0 rest now).1 := hs

lemma reachable_ledgerInv {s : State} (h : Reachable s) : LedgerInv s := by
  induction h with
  | deploy org s hd => exact ledgerInv_deploy hd
  | submit s sender e now r hr hok ih =>
    obtain ⟨price, hfe, hreq⟩ := submitBid_ok_elim hok
    rw [hreq]
    exact ledgerInv_submitBidOk sender price now ih
  | eval s now r hr hok ih =>
    obtain ⟨b0, rest, hb, hreq⟩ := findLowestBid_ok_elim hok
    rw [hreq]
    exact ledgerInv_findLowestBidOk b0 now rest ih

/-! Claim theorems. -/

/-- C1: on every non-empty roster, findLowestBid seeds the running
minimum with the ciphertext of the first roster entry and folds the
lt/select step over the remaining entries in insertion order, so the
stored minimum equals the minimum of all submitted bid values. -/
theorem findLowestBid_computes_minimum (s : State) (now b0 : Nat)
    (rest : List Nat) (r : State × List Grant × Event)
    (hb : s.bidders = b0 :: rest) (h : findLowestBid s now = Except.ok r) :
    r.1.lowestBid = rest.foldl (minStep s) ((s.bids b0).encryptedPrice) ∧
    r.1.lowestBid ∈ (getAllBidders s).map (fun a => (s.bids a).encryptedPrice) ∧
    ∀ p ∈ (getAllBidders s).map (fun a => (s.bids a).encryptedPrice),
      r.1.lowestBid ≤ p := by
  have heq : r = findLowestBidOk s b0 rest now := by
    rw [findLowestBid_eq_ok hb] at h
    exact (Except.ok.inj h).symm
  subst heq
  refine ⟨rfl, ?_, ?_⟩
  · show rest.foldl (minStep s) ((s.bids b0).encryptedPrice)
        ∈ (getAllBidders s).map (fun a => (s.bids a).encryptedPrice)
    simp only [getAllBidders]
    rw [hb, List.map_cons]
    rcases foldl_minStep_mem s rest ((s.bids b0).encryptedPrice) with h1 | ⟨c, hc, h1⟩
    · rw [h1]
      exact List.mem_cons_self _ _
    · rw [h1]
      exact List.mem_cons_of_mem _ (List.mem_map.mpr ⟨c, hc, rfl⟩)
  · show ∀ p ∈ (getAllBidders s).map (fun a => (s.bids a).encryptedPrice),
        rest.foldl (minStep s) ((s.bids b0).encryptedPrice) ≤ p
    simp only [getAllBidders]
    rw [hb, List.map_cons]
    intro p hp
    rcases List.mem_cons.mp hp with rfl | hp2
    · exact (foldl_minStep_le s rest ((s.bids b0).encryptedPrice)).1
    · obtain ⟨c, hc, rfl⟩ := List.mem_map.mp hp2
      exact (foldl_minStep_le s rest ((s.bids b0).encryptedPrice)).2 c hc

/-- Witness for C1 at the roster [1 ↦ 1000, 2 ↦ 800, 3 ↦ 1200]: the
stored minimum is 800. -/
theorem findLowestBid_computes_minimum_witness :
    (findLowestBid exState3 9).toOption.map (fun r => r.1.lowestBid)
      = some 800 := by
  have h : findLowestBid exState3 9
      = Except.ok (findLowestBidOk exState3 1 [2, 3] 9) := rfl
  have hm := findLowestBid_computes_minimum exState3 9 1 [2, 3]
    (findLowestBidOk exState3 1 [2, 3] 9) rfl h
  have h800 : (findLowestBidOk exState3 1 [2, 3] 9).1.lowestBid = 800 :=
    hm.1.trans (by decide)
  rw [h]
  exact congrArg some h800

/-- C4: findLowestBid on an empty roster reverts with EmptyLedger and
changes no state: the transactional wrapper returns the prior state,
no grant and no event. -/
theorem findLowestBid_empty_ledger (s : State) (now : Nat)
    (hb : s.bidders = []) :
    findLowestBid s now = Except.error Err.emptyLedger ∧
    runFindLowestBid s now = (s, [], []) := by
  have h1 : findLowestBid s now = Except.error Err.emptyLedger := by
    unfold findLowestBid
    rw [hb]
  refine ⟨h1, ?_⟩
  unfold runFindLowestBid
  rw [h1]

/-- Witness for C4 on the freshly deployed state. -/
theorem findLowestBid_empty_ledger_witness :
    findLowestBid exState0 3 = Except.error Err.emptyLedger ∧
    runFindLowestBid exState0 3 = (exState0, [], []) :=
  findLowestBid_empty_ledger exState0 3 rfl

/-- C7: a submit whose ciphertext fails the authenticity check reverts
with InvalidCiphertextProof and leaves all state unchanged: no roster
entry, no bid mutation, no flag change, no grant and no event. -/
theorem submitBid_invalid_proof_atomic (s : State) (sender : Nat)
    (e : FHE.ExternalEuint32) (now : Nat) (hp : e.validProof = false) :
    submitBid s sender e now = Except.error Err.invalidCiphertextProof ∧
    runSubmitBid s sender e now = (s, [], []) := by
  have hfe : FHE.fromExternal e = none := by
    unfold FHE.fromExternal
    rw [hp]
    rfl
  have h1 : submitBid s sender e now = Except.error Err.invalidCiphertextProof := by
    unfold submitBid
    rw [hfe]
  refine ⟨h1, ?_⟩
  unfold runSubmitBid
  rw [h1]

/-- Witness for C7: an invalid proof on a populated ledger. -/
theorem submitBid_invalid_proof_atomic_witness :
    submitBid exState3 2 ⟨750, false⟩ 11 = Except.error Err.invalidCiphertextProof ∧
    runSubmitBid exState3 2 ⟨750, false⟩ 11 = (exState3, [], []) :=
  submitBid_invalid_proof_atomic exState3 2 ⟨750, false⟩ 11 rfl

/-- C9: every successful findLowestBid stores the first roster entry
in _lowestBidder and carries it in the LowestBidCalculated event,
whatever the submitted values are: the loop never updates
_lowestBidder. -/
theorem lowestBidder_always_first (s : State) (now b0 : Nat)
    (rest : List Nat) (r : State × List Grant × Event)
    (hb : s.bidders = b0 :: rest) (h : findLowestBid s now = Except.ok r) :
    r.1.lowestBidder = b0 ∧ r.2.2 = Event.LowestBidCalculated b0 now := by
  have heq : r = findLowestBidOk s b0 rest now := by
    rw [findLowestBid_eq_ok hb] at h
    exact (Except.ok.inj h).symm
  subst heq
  exact ⟨rfl, rfl⟩

/-- Witness for C9: on [1 ↦ 1000, 2 ↦ 800, 3 ↦ 1200] the minimum is
held by bidder 2, yet _lowestBidder is 1 (the first roster entry). -/
theorem lowestBidder_always_first_witness :
    (runFindLowestBid exState3 9).1.lowestBidder = 1 ∧
    (runFindLowestBid exState3 9).1.lowestBid
      = (exState3.bids 2).encryptedPrice ∧
    (2 : Nat) ≠ 1 := by
  have h : findLowestBid exState3 9
      = Except.ok (findLowestBidOk exState3 1 [2, 3] 9) := rfl
  have hm := lowestBidder_always_first exState3 9 1 [2, 3]
    (findLowestBidOk exState3 1 [2, 3] 9) rfl h
  refine ⟨?_, by decide, by decide⟩
  show (findLowestBidOk exState3 1 [2, 3] 9).1.lowestBidder = 1
  exact hm.1

/-- C10: the decryption grants issued by a successful findLowestBid on
the running-minimum ciphertext are exactly the contract itself and the
organizer; any principal granted is the organizer, so no
participant-wide (public-result) grant exists. -/
theorem findLowestBid_grants_exactly (s : State) (now : Nat)
    (r : State × List Grant × Event) (h : findLowestBid s now = Except.ok r) :
    r.2.1 = [⟨r.1.lowestBid, Grantee.contractSelf⟩,
             ⟨r.1.lowestBid, Grantee.principal s.organizer⟩] ∧
    ∀ g ∈ r.2.1, ∀ a, g.grantee = Grantee.principal a → a = s.organizer := by
  obtain ⟨b0, rest, hb, heq⟩ := findLowestBid_ok_elim h
  subst heq
  refine ⟨rfl, ?_⟩
  intro g hg a hga
  rcases List.mem_cons.mp hg with rfl | hg2
  · exact Grantee.noConfusion hga
  · rcases List.mem_cons.mp hg2 with rfl | hg3
    · exact (Grantee.principal.inj hga).symm
    · exact absurd hg3 (List.not_mem_nil g)

/-- Witness for C10: on the three-bid ledger the grants are the
contract and organizer 100 on ciphertext 800. -/
theorem findLowestBid_grants_exactly_witness :
    (runFindLowestBid exState3 9).2.1
      = [⟨800, Grantee.contractSelf⟩, ⟨800, Grantee.principal 100⟩] := by
  have h : findLowestBid exState3 9
      = Except.ok (findLowestBidOk exState3 1 [2, 3] 9) := rfl
  have hm := findLowestBid_grants_exactly exState3 9
    (findLowestBidOk exState3 1 [2, 3] 9) h
  show (findLowestBidOk exState3 1 [2, 3] 9).2.1 = _
  rw [hm.1]
  decide

/-- C2: computedFlag lifecycle: every successful submit resets
_lowestBidCalculated to false, every successful findLowestBid sets it
true, while it is false getLowestBid returns the zero ciphertext with
exists false, and hence a submit right after a successful
findLowestBid makes getLowestBid report exists false again. -/
theorem computedFlag_lifecycle :
    (∀ s sender e now r, submitBid s sender e now = Except.ok r →
        r.1.lowestBidCalculated = false) ∧
    (∀ s now r, findLowestBid s now = Except.ok r →
        r.1.lowestBidCalculated = true) ∧
    (∀ s, s.lowestBidCalculated = false →
        getLowestBid s = (s.zeroEuint32, false)) ∧
    (∀ s now r sender e now2 r2,
        findLowestBid s now = Except.ok r →
        submitBid r.1 sender e now2 = Except.ok r2 →
        (getLowestBid r2.1).2 = false) := by
  have hsub : ∀ s sender e now r, submitBid s sender e now = Except.ok r →
      r.1.lowestBidCalculated = false := by
    intro s sender e now r h
    obtain ⟨price, hfe, heq⟩ := submitBid_ok_elim h
    subst heq
    rfl
  have heval : ∀ s now r, findLowestBid s now = Except.ok r →
      r.1.lowestBidCalculated = true := by
    intro s now r h
    obtain ⟨b0, rest, hb, heq⟩ := findLowestBid_ok_elim h
    subst heq
    rfl
  have hview : ∀ s, s.lowestBidCalculated = false →
      getLowestBid s = (s.zeroEuint32, false) := by
    intro s hs
    unfold getLowestBid
    rw [hs]
    rfl
  refine ⟨hsub, heval, hview, ?_⟩
  intro s now r sender e now2 r2 h h2
  rw [hview r2.1 (hsub r.1 sender e now2 r2 h2)]

/-- Witness for C2 on concrete ledgers: the flag after a submit, after
an evaluation, the view before any evaluation, and the view after an
evaluation followed by a re-submission. -/
theorem computedFlag_lifecycle_witness :
    (runSubmitBid exStateT 2 (extBid 750) 11).1.lowestBidCalculated = false ∧
    (runFindLowestBid exState3 9).1.lowestBidCalculated = true ∧
    getLowestBid exState0 = (exState0.zeroEuint32, false) ∧
    (getLowestBid (runSubmitBid (runFindLowestBid exState3 9).1 2
        (extBid 750) 11).1).2 = false := by
  have hs : submitBid exStateT 2 (extBid 750) 11
      = Except.ok (submitBidOk exStateT 2 750 11) := rfl
  have hf : findLowestBid exState3 9
      = Except.ok (findLowestBidOk exState3 1 [2, 3] 9) := rfl
  have hs2 : submitBid (findLowestBidOk exState3 1 [2, 3] 9).1 2 (extBid 750) 11
      = Except.ok (submitBidOk (findLowestBidOk exState3 1 [2, 3] 9).1 2 750 11) := rfl
  have h1 := computedFlag_lifecycle.1 exStateT 2 (extBid 750) 11
    (submitBidOk exStateT 2 750 11) hs
  have h2 := computedFlag_lifecycle.2.1 exState3 9
    (findLowestBidOk exState3 1 [2, 3] 9) hf
  have h3 := computedFlag_lifecycle.2.2.1 exState0 rfl
  have h4 := computedFlag_lifecycle.2.2.2 exState3 9
    (findLowestBidOk exState3 1 [2, 3] 9) 2 (extBid 750) 11
    (submitBidOk (findLowestBidOk exState3 1 [2, 3] 9).1 2 750 11) hf hs2
  refine ⟨?_, ?_, h3, ?_⟩
  · show (submitBidOk exStateT 2 750 11).1.lowestBidCalculated = false
    exact h1
  · show (findLowestBidOk exState3 1 [2, 3] 9).1.lowestBidCalculated = true
    exact h2
  · show (getLowestBid (submitBidOk (findLowestBidOk exState3 1 [2, 3] 9).1
        2 750 11).1).2 = false
    exact h4

/-- C3: the roster lists each distinct identity exactly once in
first-submission order: reachable states have a duplicate-free roster
holding exactly the identities with a live bid, a first submit appends
the sender, and a re-submission leaves the roster unchanged and
overwrites only encryptedPrice and timestamp of the sender in place. -/
theorem roster_distinct_first_order :
    (∀ s, Reachable s →
        (getAllBidders s).Nodup ∧
        ∀ a, a ∈ getAllBidders s ↔ hasBid s a = true) ∧
    (∀ s sender e now r, submitBid s sender e now = Except.ok r →
        ((s.bids sender).exists_ = true →
            r.1.bidders = s.bidders ∧
            (∀ a, a ≠ sender → r.1.bids a = s.bids a) ∧
            ∃ price, FHE.fromExternal e = some price ∧
              r.1.bids sender =
                { s.bids sender with encryptedPrice := price, timestamp := now }) ∧
        ((s.bids sender).exists_ = false →
            r.1.bidders = s.bidders ++ [sender])) := by
  constructor
  · intro s hre
    exact reachable_ledgerInv hre
  · intro s sender e now r h
    obtain ⟨price, hfe, heq⟩ := submitBid_ok_elim h
    subst heq
    constructor
    · intro hex
      refine ⟨by simp [submitBidOk, hex], ?_, price, hfe, ?_⟩
      · intro a ha
        simp [submitBidOk, hex, ha]
      · simp [submitBidOk, hex]
    · intro hex
      simp [submitBidOk, hex]

/-- Witness for C3: after deploying and a first submit by identity 1,
the roster is duplicate-free and matches hasBid, and a re-submission
by 1 leaves the roster unchanged. -/
theorem roster_distinct_first_order_witness :
    (getAllBidders (submitBidOk exState0 1 1000 5).1).Nodup ∧
    ((1 : Nat) ∈ getAllBidders (submitBidOk exState0 1 1000 5).1 ↔
        hasBid (submitBidOk exState0 1 1000 5).1 1 = true) ∧
    (runSubmitBid (submitBidOk exState0 1 1000 5).1 1 (extBid 900) 12).1.bidders
      = (submitBidOk exState0 1 1000 5).1.bidders := by
  have hre : Reachable (submitBidOk exState0 1 1000 5).1 :=
    Reachable.submit exState0 1 (extBid 1000) 5 (submitBidOk exState0 1 1000 5)
      (Reachable.deploy 100 exState0 rfl) rfl
  have h1 := roster_distinct_first_order.1 _ hre
  have hs2 : submitBid (submitBidOk exState0 1 1000 5).1 1 (extBid 900) 12
      = Except.ok (submitBidOk (submitBidOk exState0 1 1000 5).1 1 900 12) := rfl
  have h2 := (roster_distinct_first_order.2 (submitBidOk exState0 1 1000 5).1
      1 (extBid 900) 12
      (submitBidOk (submitBidOk exState0 1 1000 5).1 1 900 12) hs2).1 (by decide)
  refine ⟨h1.1, h1.2 1, ?_⟩
  show (submitBidOk (submitBidOk exState0 1 1000 5).1 1 900 12).1.bidders = _
  exact h2.1

/-- C5 counterexample: submitBid does mutate Running Minimum state: on
a state whose computedFlag is true, a successful submit flips it to
false, so the flag is not mutated only by evaluateMinimum. -/
theorem submit_mutates_running_minimum_cex :
    exStateT.lowestBidCalculated = true ∧
    (runSubmitBid exStateT 2 (extBid 750) 11).1.lowestBidCalculated = false :=
  ⟨rfl, rfl⟩

/-- C5 amended: Bid Ledger state (bids and roster) is mutated only by
submit — findLowestBid leaves both unchanged — and sealedMin is
mutated only by evaluateMinimum — submit leaves _lowestBid (and
_lowestBidder) unchanged; computedFlag however is also reset to false
by every successful submit. -/
theorem state_mutation_frame :
    (∀ s now r, findLowestBid s now = Except.ok r →
        r.1.bids = s.bids ∧ r.1.bidders = s.bidders) ∧
    (∀ s sender e now r, submitBid s sender e now = Except.ok r →
        r.1.lowestBid = s.lowestBid ∧ r.1.lowestBidder = s.lowestBidder ∧
        r.1.lowestBidCalculated = false) := by
  constructor
  · intro s now r h
    obtain ⟨b0, rest, hb, heq⟩ := findLowestBid_ok_elim h
    subst heq
    exact ⟨rfl, rfl⟩
  · intro s sender e now r h
    obtain ⟨price, hfe, heq⟩ := submitBid_ok_elim h
    subst heq
    by_cases hex : (s.bids sender).exists_
    · refine ⟨?_, ?_, rfl⟩ <;> simp [submitBidOk, hex]
    · refine ⟨?_, ?_, rfl⟩ <;> simp [submitBidOk, hex]

/-- Witness for C5 amended on concrete ledgers. -/
theorem state_mutation_frame_witness :
    (runFindLowestBid exState3 9).1.bidders = exState3.bidders ∧
    (runSubmitBid exStateT 2 (extBid 750) 11).1.lowestBid
      = exStateT.lowestBid := by
  have hf : findLowestBid exState3 9
      = Except.ok (findLowestBidOk exState3 1 [2, 3] 9) := rfl
  have hs : submitBid exStateT 2 (extBid 750) 11
      = Except.ok (submitBidOk exStateT 2 750 11) := rfl
  have h1 := (state_mutation_frame.1 exState3 9
    (findLowestBidOk exState3 1 [2, 3] 9) hf).2
  have h2 := (state_mutation_frame.2 exStateT 2 (extBid 750) 11
    (submitBidOk exStateT 2 750 11) hs).1
  constructor
  · show (findLowestBidOk exState3 1 [2, 3] 9).1.bidders = _
    exact h1
  · show (submitBidOk exStateT 2 750 11).1.lowestBid = _
    exact h2

/-- C6 counterexample: the notification of a successful findLowestBid
is LowestBidCalculated carrying bidder identity 1 alongside the
timestamp, and 1 is a roster participant — the event does not carry
only a timestamp. -/
theorem minimum_event_exposes_identity_cex :
    (runFindLowestBid exState3 9).2.2 = [Event.LowestBidCalculated 1 9] ∧
    (1 : Nat) ∈ getAllBidders exState3 :=
  ⟨rfl, by decide⟩

/-- C6 amended: the notification emitted by a successful
findLowestBid carries the placeholder identity _bidders[0] in addition
to the timestamp; the exposed identity is always the first roster
entry, independent of which participant holds the minimum. -/
theorem minimum_event_payload (s : State) (now b0 : Nat) (rest : List Nat)
    (r : State × List Grant × Event)
    (hb : s.bidders = b0 :: rest) (h : findLowestBid s now = Except.ok r) :
    r.2.2 = Event.LowestBidCalculated b0 now := by
  have heq : r = findLowestBidOk s b0 rest now := by
    rw [findLowestBid_eq_ok hb] at h
    exact (Except.ok.inj h).symm
  subst heq
  rfl

/-- Witness for C6 amended. -/
theorem minimum_event_payload_witness :
    (runFindLowestBid exStateT 13).2.2 = [Event.LowestBidCalculated 1 13] := by
  have h : findLowestBid exStateT 13
      = Except.ok (findLowestBidOk exStateT 1 [2, 3] 13) := rfl
  have hm := minimum_event_payload exStateT 13 1 [2, 3]
    (findLowestBidOk exStateT 1 [2, 3] 13) rfl h
  show [(findLowestBidOk exStateT 1 [2, 3] 13).2.2] = _
  rw [hm]

/-- C8: with no intervening submit, a second findLowestBid succeeds
and folds the same roster snapshot, yielding the same stored minimum
and the same getLowestBid view. -/
theorem findLowestBid_idempotent (s : State) (now now2 : Nat)
    (r : State × List Grant × Event) (h : findLowestBid s now = Except.ok r) :
    ∃ r2, findLowestBid r.1 now2 = Except.ok r2 ∧
      r2.1.lowestBid = r.1.lowestBid ∧
      getLowestBid r2.1 = getLowestBid r.1 := by
  obtain ⟨b0, rest, hb, heq⟩ := findLowestBid_ok_elim h
  subst heq
  have hb2 : (findLowestBidOk s b0 rest now).1.bidders = b0 :: rest := hb
  exact ⟨findLowestBidOk (findLowestBidOk s b0 rest now).1 b0 rest now2,
    findLowestBid_eq_ok hb2, rfl, rfl⟩

/-- Witness for C8: evaluating twice on the three-bid ledger returns
the same stored minimum. -/
theorem findLowestBid_idempotent_witness :
    (runFindLowestBid (runFindLowestBid exState3 9).1 10).1.lowestBid
      = (runFindLowestBid exState3 9).1.lowestBid := by
  have h : findLowestBid exState3 9
      = Except.ok (findLowestBidOk exState3 1 [2, 3] 9) := rfl
  obtain ⟨⟨t2, g2, ev2⟩, h2, h3, h4⟩ := findLowestBid_idempotent exState3 9 10
    (findLowestBidOk exState3 1 [2, 3] 9) h
  have houter : (runFindLowestBid exState3 9).1
      = (findLowestBidOk exState3 1 [2, 3] 9).1 := rfl
  rw [houter]
  unfold runFindLowestBid
  rw [h2]
  exact h3

end EncryptedBidding
